import Mathlib

/-!
Verification development for the express-waitlist repository.

The definitions below are a shallow embedding of the admission-control core:
the party store (`src/models/parties.js`), the dequeue service
(`dequeue-service.js`), the check-in expiry service
(`src/services/checkin-expired-service.js`), the event-stream bridge
(`event-stream-service.js`) and the session-bound API controllers
(`src/controllers/parties/party-controller.js`).

Timestamps are modelled as natural numbers, the database table as a
`List PartyRow`, and every fallible store operation as a pure function
returning an error/value pair, mirroring the `(err, value)` tuple
discipline of the source.
-/

/- Configuration defaults from src/config/waitlist.js. -/

def MAX_SEATS : Nat := 10

def SERVICE_TIME_SECONDS : Nat := 15

def CHECKIN_EXPIRY_SECONDS : Nat := 60

/- Channel and cache names from src/constants/pub-sub-channels.js. -/

def CHANNEL_DEQUEUE : String := "dequeued-channel"

def CHANNEL_CHECKING_IN_EXPIRED : String := "checking-in-expired-channel"

def CHANNEL_QUEUE_POSITIONS : String := "queue-positions-channel"

def CACHE_QUEUED_PARTY_POSITIONS : String := "queued-party-positions"

/- Error codes from src/constants/errors.js. -/

def PARTY_NOT_FOUND : String := "PARTY_NOT_FOUND"

def ERROR_UNAUTHORIZED : String := "Unauthorized request"

/-- The `status` enum of the parties table. -/
inductive PartyStatus where
  | queued
  | checkingIn
  | seated
  deriving DecidableEq, Repr

/-- One row of the `parties` table (the columns the core logic reads). -/
structure PartyRow where
  party_id : String
  size : Nat
  queued_at : Nat
  status : PartyStatus
  checkin_expiration : Option Nat
  seat_expiration : Option Nat
  deriving DecidableEq, Repr

/-- The canonical queue ordering used throughout the SQL:
`ORDER BY queued_at ASC, party_id`. -/
def keyLE (a b : PartyRow) : Prop :=
  a.queued_at < b.queued_at ∨ (a.queued_at = b.queued_at ∧ a.party_id ≤ b.party_id)

instance : DecidableRel keyLE := fun a b =>
  inferInstanceAs (Decidable (a.queued_at < b.queued_at ∨
    (a.queued_at = b.queued_at ∧ a.party_id ≤ b.party_id)))

instance : IsTotal PartyRow keyLE := by
  constructor
  intro a b
  rcases Nat.lt_trichotomy a.queued_at b.queued_at with h | h | h
  · exact Or.inl (Or.inl h)
  · rcases le_total a.party_id b.party_id with h2 | h2
    · exact Or.inl (Or.inr ⟨h, h2⟩)
    · exact Or.inr (Or.inr ⟨h.symm, h2⟩)
  · exact Or.inr (Or.inl h)

instance : IsTrans PartyRow keyLE := by
  constructor
  intro a b c hab hbc
  rcases hab with h1 | ⟨h1, h1'⟩ <;> rcases hbc with h2 | ⟨h2, h2'⟩
  · exact Or.inl (h1.trans h2)
  · exact Or.inl (lt_of_lt_of_eq h1 h2)
  · exact Or.inl (lt_of_eq_of_lt h1 h2)
  · exact Or.inr ⟨h1.trans h2, le_trans h1' h2'⟩

theorem keyLE_antisymm {a b : PartyRow} (h1 : keyLE a b) (h2 : keyLE b a) :
    a.queued_at = b.queued_at ∧ a.party_id = b.party_id := by
  rcases h1 with h1 | ⟨h1, h1'⟩ <;> rcases h2 with h2 | ⟨h2, h2'⟩
  · omega
  · omega
  · omega
  · exact ⟨h1, le_antisymm h1' h2'⟩

/-- Rows currently in the `queued` status. -/
def isQueued (r : PartyRow) : Bool := r.status == PartyStatus.queued

/-- The queued rows in canonical order — every query in the store sorts with
`ORDER BY queued_at ASC, party_id`. -/
def sortedQueue (rows : List PartyRow) : List PartyRow :=
  List.insertionSort keyLE (rows.filter isQueued)

/-- The `SUM(size) OVER (ORDER BY queued_at ASC, party_id)` window: each row
paired with the cumulative size up to and including it. -/
def withRunningTotal (acc : Nat) : List PartyRow → List (PartyRow × Nat)
  | [] => []
  | r :: rest => (r, acc + r.size) :: withRunningTotal (acc + r.size) rest

/-- `getPartiesToDequeue` (src/models/parties.js): the party ids of queued
rows whose running total is `≤ availableSeats`. -/
def getPartiesToDequeue (rows : List PartyRow) (availableSeats : Int) : List String :=
  ((withRunningTotal 0 (sortedQueue rows)).filter
      (fun p => decide ((p.2 : Int) ≤ availableSeats))).map (fun p => p.1.party_id)

/-- Greedy FIFO selection: take rows from the front while each fits into the
remaining budget.  This is the "longest fitting front segment" the spec
describes; the development proves `getPartiesToDequeue` computes exactly it. -/
def greedyTake (budget : Int) : List PartyRow → List PartyRow
  | [] => []
  | r :: rest =>
    if (r.size : Int) ≤ budget then r :: greedyTake (budget - r.size) rest else []

/-- Combined party size of a list of rows. -/
def sumSizes (l : List PartyRow) : Nat := (l.map PartyRow.size).sum

theorem withRunningTotal_ge (acc : Nat) (l : List PartyRow) :
    ∀ p ∈ withRunningTotal acc l, acc ≤ p.2 := by
  induction l generalizing acc with
  | nil => intro p hp; simp [withRunningTotal] at hp
  | cons r rest ih =>
    intro p hp
    simp only [withRunningTotal, List.mem_cons] at hp
    rcases hp with h | h
    · subst h; simp
    · have := ih (acc + r.size) p h; omega

theorem filter_withRunningTotal_eq_greedy (a : Int) (acc : Nat) (l : List PartyRow) :
    ((withRunningTotal acc l).filter (fun p => decide ((p.2 : Int) ≤ a))).map
        (fun p => p.1)
      = greedyTake (a - acc) l := by
  induction l generalizing acc with
  | nil => rfl
  | cons r rest ih =>
    by_cases h : ((acc + r.size : Nat) : Int) ≤ a
    · have h' : (r.size : Int) ≤ a - acc := by push_cast at h ⊢; omega
      have hstep : (a - acc) - r.size = a - ((acc + r.size : Nat) : Int) := by
        push_cast; ring
      simp only [withRunningTotal, List.filter_cons, greedyTake]
      rw [if_pos (decide_eq_true h), if_pos h', List.map_cons, hstep]
      exact congrArg (r :: ·) (ih (acc + r.size))
    · have h' : ¬ (r.size : Int) ≤ a - acc := by push_cast at h ⊢; omega
      have hnil : (withRunningTotal (acc + r.size) rest).filter
          (fun p => decide ((p.2 : Int) ≤ a)) = [] := by
        apply List.filter_eq_nil_iff.mpr
        intro p hp
        have hge := withRunningTotal_ge (acc + r.size) rest p hp
        simp only [decide_eq_true_eq]
        push_cast at h ⊢
        omega
      simp only [withRunningTotal, List.filter_cons, greedyTake]
      rw [if_neg (by simpa using h), if_neg h', hnil, List.map_nil]

theorem getPartiesToDequeue_eq_greedy (rows : List PartyRow) (a : Int) :
    getPartiesToDequeue rows a = (greedyTake a (sortedQueue rows)).map PartyRow.party_id := by
  have h := filter_withRunningTotal_eq_greedy a 0 (sortedQueue rows)
  have h0 : a - ((0 : Nat) : Int) = a := by push_cast; ring
  rw [h0] at h
  rw [getPartiesToDequeue, ← h, List.map_map]
  rfl

theorem greedyTake_eq_take (a : Int) (l : List PartyRow) :
    greedyTake a l = l.take (greedyTake a l).length := by
  induction l generalizing a with
  | nil => rfl
  | cons r rest ih =>
    by_cases h : (r.size : Int) ≤ a
    · simp only [greedyTake, if_pos h, List.length_cons, List.take_succ_cons]
      exact congrArg (r :: ·) (ih (a - r.size))
    · simp [greedyTake, if_neg h]

theorem sumSizes_greedyTake_le (a : Int) (l : List PartyRow) (ha : 0 ≤ a) :
    (sumSizes (greedyTake a l) : Int) ≤ a := by
  induction l generalizing a with
  | nil => simpa [greedyTake, sumSizes] using ha
  | cons r rest ih =>
    by_cases h : (r.size : Int) ≤ a
    · by_cases h2 : 0 ≤ a - r.size
      · have := ih (a - r.size) h2
        simp only [greedyTake, if_pos h, sumSizes, List.map_cons, List.sum_cons]
        simp only [sumSizes] at this
        push_cast at this ⊢
        omega
      · push_cast at h h2; omega
    · simpa [greedyTake, if_neg h, sumSizes] using ha

theorem greedyTake_longest (a : Int) (l : List PartyRow) :
    ∀ m, (sumSizes (l.take m) : Int) ≤ a → (l.take m).length ≤ (greedyTake a l).length := by
  induction l generalizing a with
  | nil => intro m _; simp
  | cons r rest ih =>
    intro m hm
    cases m with
    | zero => simp
    | succ k =>
      simp only [List.take_succ_cons, sumSizes, List.map_cons, List.sum_cons] at hm
      have hr : (r.size : Int) ≤ a := by omega
      have hrec : (sumSizes (rest.take k) : Int) ≤ a - r.size := by
        simp only [sumSizes]; omega
      simp only [greedyTake, if_pos hr, List.length_cons, List.take_succ_cons]
      exact Nat.succ_le_succ (ih (a - r.size) k hrec)

/-- C1: `getPartiesToDequeue(a)` returns exactly the longest front segment of
the queued rows, taken in ascending `(queued_at, party_id)` order, whose
cumulative size is at most `a`: the result is the greedy FIFO selection, that
selection is an initial segment (`take`) of the canonical queue, its total
size fits in `a`, it is the longest initial segment that fits, and if the
first queued party already exceeds `a` the result is empty. -/
theorem C1_getPartiesToDequeue_longest_fitting_front_segment
    (rows : List PartyRow) (a : Int) :
    getPartiesToDequeue rows a = (greedyTake a (sortedQueue rows)).map PartyRow.party_id
    ∧ greedyTake a (sortedQueue rows)
        = (sortedQueue rows).take (greedyTake a (sortedQueue rows)).length
    ∧ (0 ≤ a → (sumSizes (greedyTake a (sortedQueue rows)) : Int) ≤ a)
    ∧ (∀ m, (sumSizes ((sortedQueue rows).take m) : Int) ≤ a →
        ((sortedQueue rows).take m).length ≤ (greedyTake a (sortedQueue rows)).length)
    ∧ (∀ r rest, sortedQueue rows = r :: rest → ¬ (r.size : Int) ≤ a →
        getPartiesToDequeue rows a = []) := by
  refine ⟨getPartiesToDequeue_eq_greedy rows a,
    greedyTake_eq_take a (sortedQueue rows),
    sumSizes_greedyTake_le a (sortedQueue rows),
    greedyTake_longest a (sortedQueue rows),
    ?_⟩
  intro r rest hq hr
  rw [getPartiesToDequeue_eq_greedy rows a, hq]
  simp [greedyTake, if_neg hr]

/-- Witness for C1 at the literal scenario of spec §8 test 2:
three queued parties of sizes 8, 2, 2 with 10 available seats; the first
two are selected and the third is not. -/
theorem C1_witness :
    getPartiesToDequeue
      [⟨"P1", 8, 1, PartyStatus.queued, none, none⟩,
       ⟨"P2", 2, 2, PartyStatus.queued, none, none⟩,
       ⟨"P3", 2, 3, PartyStatus.queued, none, none⟩] 10 = ["P1", "P2"] ∧
    (0 : Int) ≤ 10 ∧
    (sumSizes (greedyTake 10 (sortedQueue
      [⟨"P1", 8, 1, PartyStatus.queued, none, none⟩,
       ⟨"P2", 2, 2, PartyStatus.queued, none, none⟩,
       ⟨"P3", 2, 3, PartyStatus.queued, none, none⟩])) : Int) ≤ 10 := by
  refine ⟨by decide, by decide, ?_⟩
  exact (C1_getPartiesToDequeue_longest_fitting_front_segment _ 10).2.2.1 (by decide)

/- ## Store operations (src/models/parties.js) -/

/-- Contribution of one row to the occupied seat count at time `now`:
`(status = seated AND seat_expiration > now) OR status = checking-in`
(`getAvailableSeatCount`'s WHERE clause). -/
def occSize (now : Nat) (r : PartyRow) : Nat :=
  match r.status with
  | PartyStatus.checkingIn => r.size
  | PartyStatus.seated =>
    match r.seat_expiration with
    | some e => if now < e then r.size else 0
    | none => 0
  | PartyStatus.queued => 0

/-- `SUM(size)` over the occupying rows. -/
def occupiedSeats (rows : List PartyRow) (now : Nat) : Nat :=
  (rows.map (occSize now)).sum

/-- `getAvailableSeatCount`: `MAX_SEATS` minus the occupied seat count
(a null sum coerces to 0, which the empty list's sum already models). -/
def getAvailableSeatCount (rows : List PartyRow) (now : Nat) : Int :=
  (MAX_SEATS : Int) - occupiedSeats rows now

/-- The row update applied by `updateSeatedStatus`. -/
def seatRow (now : Nat) (psize : Nat) (r : PartyRow) : PartyRow :=
  { r with status := PartyStatus.seated,
           seat_expiration := some (now + SERVICE_TIME_SECONDS * psize) }

/-- The WHERE clause of `updateSeatedStatus`:
`party_id = pid AND status = 'checking-in'`. -/
def matchesSeatUpdate (pid : String) (r : PartyRow) : Bool :=
  r.party_id == pid && r.status == PartyStatus.checkingIn

/-- `updateSeatedStatus(partyID, partySize)`: seats the matching checking-in
row with `seat_expiration = now + SERVICE_TIME_SECONDS * partySize`; when the
UPDATE matched no row, returns `PARTY_NOT_FOUND`. -/
def updateSeatedStatus (rows : List PartyRow) (now : Nat) (pid : String) (psize : Nat) :
    (Option String × Option Nat) × List PartyRow :=
  let rows' := rows.map (fun r => if matchesSeatUpdate pid r then seatRow now psize r else r)
  if rows.any (matchesSeatUpdate pid) then
    ((none, some (now + SERVICE_TIME_SECONDS * psize)), rows')
  else ((some PARTY_NOT_FOUND, none), rows')

/-- The WHERE clause of `deleteCheckingInExpiredParties`:
`status = 'checking-in' AND checkin_expiration < now` (a NULL expiration
matches nothing). -/
def isCheckinExpired (now : Nat) (r : PartyRow) : Bool :=
  r.status == PartyStatus.checkingIn &&
    match r.checkin_expiration with
    | some e => decide (e < now)
    | none => false

/-- `deleteCheckingInExpiredParties`: deletes the overdue checking-in rows and
returns the surviving table together with the deleted party ids. -/
def deleteCheckingInExpiredParties (rows : List PartyRow) (now : Nat) :
    List PartyRow × List String :=
  (rows.filter (fun r => !isCheckinExpired now r),
   (rows.filter (isCheckinExpired now)).map PartyRow.party_id)

/-- The WHERE clause of `removeExpiredSeats`:
`status = 'seated' AND seat_expiration < now`. -/
def isSeatExpired (now : Nat) (r : PartyRow) : Bool :=
  r.status == PartyStatus.seated &&
    match r.seat_expiration with
    | some e => decide (e < now)
    | none => false

/-- `removeExpiredSeats`: deletes the seated rows whose service interval has
elapsed and returns the surviving table together with the deleted ids. -/
def removeExpiredSeats (rows : List PartyRow) (now : Nat) :
    List PartyRow × List String :=
  (rows.filter (fun r => !isSeatExpired now r),
   (rows.filter (isSeatExpired now)).map PartyRow.party_id)

/-- The row update applied by `setCheckingInStatus`. -/
def checkinRow (now : Nat) (r : PartyRow) : PartyRow :=
  { r with status := PartyStatus.checkingIn,
           checkin_expiration := some (now + CHECKIN_EXPIRY_SECONDS) }

/-- `setCheckingInStatus(partyIDs)`: flips every row whose `party_id` is in
the list (the UPDATE's only filter is `whereIn('party_id', ...)`) and returns
the shared `checkin_expiration`, or an empty value when no row matched. -/
def setCheckingInStatus (rows : List PartyRow) (now : Nat) (pids : List String) :
    List PartyRow × Option Nat :=
  (rows.map (fun r => if r.party_id ∈ pids then checkinRow now r else r),
   if rows.any (fun r => decide (r.party_id ∈ pids)) then
     some (now + CHECKIN_EXPIRY_SECONDS)
   else none)

/-- `deletePartyByID`: deletes the row(s) with the given id; a delete that
removed nothing reports `PARTY_NOT_FOUND`. -/
def deletePartyByID (rows : List PartyRow) (pid : String) :
    Option String × List PartyRow :=
  if rows.any (fun r => r.party_id == pid) then
    (none, rows.filter (fun r => !(r.party_id == pid)))
  else (some PARTY_NOT_FOUND, rows)

/-- Full behavioural characterization of `updateSeatedStatus`, shared by the
claims about check-in. -/
theorem updateSeatedStatus_characterization
    (rows : List PartyRow) (now : Nat) (pid : String) (psize : Nat)
    (hnd : (rows.map PartyRow.party_id).Nodup) :
    ((∃ r ∈ rows, r.party_id = pid ∧ r.status = PartyStatus.checkingIn) →
      (updateSeatedStatus rows now pid psize).1
          = (none, some (now + SERVICE_TIME_SECONDS * psize))
      ∧ (∀ r' ∈ (updateSeatedStatus rows now pid psize).2, r'.party_id = pid →
          r'.status = PartyStatus.seated
          ∧ r'.seat_expiration = some (now + SERVICE_TIME_SECONDS * psize))
      ∧ (∀ r ∈ rows, r.party_id ≠ pid → r ∈ (updateSeatedStatus rows now pid psize).2))
    ∧ ((¬ ∃ r ∈ rows, r.party_id = pid ∧ r.status = PartyStatus.checkingIn) →
      (updateSeatedStatus rows now pid psize).1 = (some PARTY_NOT_FOUND, none)
      ∧ (updateSeatedStatus rows now pid psize).2 = rows) := by
  have hany : rows.any (matchesSeatUpdate pid) = true ↔
      ∃ r ∈ rows, r.party_id = pid ∧ r.status = PartyStatus.checkingIn := by
    rw [List.any_eq_true]
    constructor
    · rintro ⟨r, hr, hm⟩
      simp only [matchesSeatUpdate, Bool.and_eq_true, beq_iff_eq] at hm
      exact ⟨r, hr, hm⟩
    · rintro ⟨r, hr, h1, h2⟩
      exact ⟨r, hr, by simp [matchesSeatUpdate, h1, h2]⟩
  have hsnd : (updateSeatedStatus rows now pid psize).2
      = rows.map (fun r => if matchesSeatUpdate pid r then seatRow now psize r else r) := by
    unfold updateSeatedStatus
    by_cases h : rows.any (matchesSeatUpdate pid) <;> simp [h]
  constructor
  · intro hex
    have hb : rows.any (matchesSeatUpdate pid) = true := hany.mpr hex
    refine ⟨by simp [updateSeatedStatus, hb], ?_, ?_⟩
    · intro r' hr' hpid
      rw [hsnd] at hr'
      rw [List.mem_map] at hr'
      obtain ⟨r, hr, hfr⟩ := hr'
      by_cases hm : matchesSeatUpdate pid r
      · rw [if_pos hm] at hfr
        subst hfr
        exact ⟨rfl, rfl⟩
      · rw [if_neg hm] at hfr
        subst hfr
        obtain ⟨r₀, hr₀, h1, h2⟩ := hex
        have hmr₀ : matchesSeatUpdate pid r₀ = true := by
          simp [matchesSeatUpdate, h1, h2]
        have heq : r = r₀ :=
          List.inj_on_of_nodup_map hnd hr hr₀ (by rw [hpid, h1])
        rw [heq] at hm
        exact absurd hmr₀ hm
    · intro r hr hpid
      rw [hsnd, List.mem_map]
      refine ⟨r, hr, ?_⟩
      have hm : ¬ matchesSeatUpdate pid r = true := by
        simp only [matchesSeatUpdate, Bool.and_eq_true, beq_iff_eq]
        intro h
        exact hpid h.1
      rw [if_neg hm]
  · intro hnex
    have hb : rows.any (matchesSeatUpdate pid) = false := by
      rw [← Bool.not_eq_true]
      intro h
      exact hnex (hany.mp h)
    have hpt : ∀ r ∈ rows,
        (if matchesSeatUpdate pid r then seatRow now psize r else r) = r := by
      intro r hr
      apply if_neg
      intro hm
      exact hnex (hany.mp (List.any_eq_true.mpr ⟨r, hr, hm⟩))
    have hid : rows.map
        (fun r => if matchesSeatUpdate pid r then seatRow now psize r else r) = rows := by
      rw [List.map_congr_left hpt]
      exact List.map_id' rows
    refine ⟨by simp [updateSeatedStatus, hb], ?_⟩
    rw [hsnd, hid]

/-- C4: `updateSeatedStatus(pid, size)` seats a party if and only if a row
with that `party_id` is currently `checking-in`: in that case it succeeds,
returns `seat_expiration = now + SERVICE_TIME_SECONDS * size`, sets the
party's row to `seated` with that expiration and leaves every other row in
the table; in every other case it returns `PARTY_NOT_FOUND` and leaves the
table unchanged. -/
theorem C4_updateSeatedStatus_requires_checking_in
    (rows : List PartyRow) (now : Nat) (pid : String) (psize : Nat)
    (hnd : (rows.map PartyRow.party_id).Nodup) :
    ((∃ r ∈ rows, r.party_id = pid ∧ r.status = PartyStatus.checkingIn) →
      (updateSeatedStatus rows now pid psize).1
          = (none, some (now + SERVICE_TIME_SECONDS * psize))
      ∧ (∀ r' ∈ (updateSeatedStatus rows now pid psize).2, r'.party_id = pid →
          r'.status = PartyStatus.seated
          ∧ r'.seat_expiration = some (now + SERVICE_TIME_SECONDS * psize))
      ∧ (∀ r ∈ rows, r.party_id ≠ pid → r ∈ (updateSeatedStatus rows now pid psize).2))
    ∧ ((¬ ∃ r ∈ rows, r.party_id = pid ∧ r.status = PartyStatus.checkingIn) →
      (updateSeatedStatus rows now pid psize).1 = (some PARTY_NOT_FOUND, none)
      ∧ (updateSeatedStatus rows now pid psize).2 = rows) :=
  updateSeatedStatus_characterization rows now pid psize hnd

/-- Witness for C4: with one checking-in party "A" of size 2, check-in at
time 0 succeeds and yields `seat_expiration = SERVICE_TIME_SECONDS * 2`, and
for a missing id "B" the store answers `PARTY_NOT_FOUND` leaving the table
unchanged. -/
theorem C4_witness :
    (updateSeatedStatus
        [⟨"A", 2, 0, PartyStatus.checkingIn, some 60, none⟩] 0 "A" 2).1
      = (none, some (0 + SERVICE_TIME_SECONDS * 2))
    ∧ (updateSeatedStatus
        [⟨"A", 2, 0, PartyStatus.checkingIn, some 60, none⟩] 0 "B" 2).1
      = (some PARTY_NOT_FOUND, none)
    ∧ (updateSeatedStatus
        [⟨"A", 2, 0, PartyStatus.checkingIn, some 60, none⟩] 0 "B" 2).2
      = [⟨"A", 2, 0, PartyStatus.checkingIn, some 60, none⟩] := by
  have h1 := (C4_updateSeatedStatus_requires_checking_in
    [⟨"A", 2, 0, PartyStatus.checkingIn, some 60, none⟩] 0 "A" 2 (by decide)).1
    ⟨⟨"A", 2, 0, PartyStatus.checkingIn, some 60, none⟩, by simp, rfl, rfl⟩
  have h2 := (C4_updateSeatedStatus_requires_checking_in
    [⟨"A", 2, 0, PartyStatus.checkingIn, some 60, none⟩] 0 "B" 2 (by decide)).2
    (by decide)
  exact ⟨h1.1, h2.1, h2.2⟩

/- ## Dequeue service (src/services/dequeue-service.js) -/

/-- Externally visible effects of one dequeue-service run, in program order. -/
inductive DequeueEffect where
  | scheduleCheckinExpiredJob (runAt : Nat)
  | publishDequeued (partyIDs : List String) (checkingInExpiration : Nat)
  | setCache (queuedParties : List (String × Nat))
  | publishQueuePositions (queuedParties : List (String × Nat))
  deriving DecidableEq, Repr

/-- `ROW_NUMBER() OVER (ORDER BY queued_at ASC, party_id)` starting at `n`. -/
def numberFrom (n : Nat) : List PartyRow → List (String × Nat)
  | [] => []
  | r :: rest => (r.party_id, n) :: numberFrom (n + 1) rest

/-- `getCurrentQueuePositions`: each queued row's id with its 1-based row
number in canonical order. -/
def getCurrentQueuePositions (rows : List PartyRow) : List (String × Nat) :=
  numberFrom 1 (sortedQueue rows)

/-- `handleDequeueUpdates`: select the parties to dequeue, flip them to
checking-in, schedule the check-in-expiry job and publish the `dequeue`
message.  Returns the updated table and the effects emitted. -/
def handleDequeueUpdates (rows : List PartyRow) (now : Nat) (availableSeats : Int) :
    List PartyRow × List DequeueEffect :=
  let toDequeuePartyIDs := getPartiesToDequeue rows availableSeats
  if toDequeuePartyIDs.isEmpty then (rows, [])
  else
    let upd := setCheckingInStatus rows now toDequeuePartyIDs
    match upd.2 with
    | none => (upd.1, [])
    | some exp =>
      (upd.1, [DequeueEffect.scheduleCheckinExpiredJob exp,
               DequeueEffect.publishDequeued toDequeuePartyIDs exp])

/-- `dequeueUsers`: one full dequeue-service run.  When seats are available it
runs `handleDequeueUpdates`; in every case it then caches and broadcasts the
fresh queue positions (the same serialized message for both). -/
def dequeueUsers (rows : List PartyRow) (now : Nat) :
    List PartyRow × List DequeueEffect :=
  let availableSeats := getAvailableSeatCount rows now
  let step := if availableSeats > 0 then handleDequeueUpdates rows now availableSeats
              else (rows, [])
  let positions := getCurrentQueuePositions step.1
  (step.1, step.2 ++ [DequeueEffect.setCache positions,
                      DequeueEffect.publishQueuePositions positions])

/-- Does an effect write the queue-positions cache key? -/
def isCacheWrite : DequeueEffect → Bool
  | DequeueEffect.setCache _ => true
  | _ => false

theorem handleDequeueUpdates_no_cache_write (rows : List PartyRow) (now : Nat)
    (a : Int) : ∀ e ∈ (handleDequeueUpdates rows now a).2, isCacheWrite e = false := by
  unfold handleDequeueUpdates
  by_cases h : (getPartiesToDequeue rows a).isEmpty
  · simp [h]
  · simp only [h, Bool.false_eq_true, if_false]
    cases hexp : (setCheckingInStatus rows now (getPartiesToDequeue rows a)).2 with
    | none => simp
    | some exp =>
      intro e he
      simp only [List.mem_cons, List.mem_singleton] at he
      rcases he with he | he | he
      · rw [he]; rfl
      · rw [he]; rfl
      · cases he

/-- C9: every dequeue-service run ends by writing the queue-positions
snapshot to the cache key and then immediately publishing the *identical*
message on the queue-positions channel, and no other effect of the run
writes the cache. -/
theorem C9_cache_write_immediately_followed_by_identical_publish
    (rows : List PartyRow) (now : Nat) :
    ∃ pre positions,
      (dequeueUsers rows now).2
          = pre ++ [DequeueEffect.setCache positions,
                    DequeueEffect.publishQueuePositions positions]
      ∧ (∀ e ∈ pre, isCacheWrite e = false)
      ∧ positions = getCurrentQueuePositions (dequeueUsers rows now).1 := by
  unfold dequeueUsers
  by_cases h : getAvailableSeatCount rows now > 0
  · refine ⟨(handleDequeueUpdates rows now (getAvailableSeatCount rows now)).2,
      getCurrentQueuePositions
        (handleDequeueUpdates rows now (getAvailableSeatCount rows now)).1, ?_, ?_, ?_⟩
    · simp [h]
    · exact handleDequeueUpdates_no_cache_write rows now _
    · simp [h]
  · exact ⟨[], getCurrentQueuePositions rows, by simp [h], by simp, by simp [h]⟩

/- ## Check-in expiry service (src/services/checkin-expired-service.js) -/

/-- Externally visible effects of one check-in-expiry-service run. -/
structure CheckinExpiryRun where
  rows : List PartyRow
  publishedMessages : List (String × List String)
  dequeueJobsEnqueued : Nat
  deriving DecidableEq, Repr

/-- `expireCheckedinUsers`: deletes the overdue checking-in rows, then
publishes the deleted ids on the check-in-expired channel and enqueues a
dequeue job.  The source performs the publish and the enqueue
unconditionally — there is no emptiness check between the delete and the
broadcast. -/
def expireCheckedinUsers (rows : List PartyRow) (now : Nat) : CheckinExpiryRun :=
  let deleted := deleteCheckingInExpiredParties rows now
  { rows := deleted.1,
    publishedMessages := [(CHANNEL_CHECKING_IN_EXPIRED, deleted.2)],
    dequeueJobsEnqueued := 1 }

/-- C3 (divergence witness): running the check-in-expiry service on a table
with no expired checking-in rows still publishes a `{ partyIDs: [] }`
message on the check-in-expired channel and still enqueues a dequeue job —
the claim (and the service's own doc comment) say nothing is published and
no job is enqueued in that case. -/
theorem C3_expiry_service_publishes_even_when_nothing_expired :
    (deleteCheckingInExpiredParties
        [⟨"A", 2, 0, PartyStatus.checkingIn, some 100, none⟩] 50).2 = []
    ∧ expireCheckedinUsers
        [⟨"A", 2, 0, PartyStatus.checkingIn, some 100, none⟩] 50
      = { rows := [⟨"A", 2, 0, PartyStatus.checkingIn, some 100, none⟩],
          publishedMessages := [(CHANNEL_CHECKING_IN_EXPIRED, [])],
          dequeueJobsEnqueued := 1 }
    ∧ [(CHANNEL_CHECKING_IN_EXPIRED, ([] : List String))] ≠ []
    ∧ (1 : Nat) ≠ 0 := by
  refine ⟨by decide, ?_, by decide, by decide⟩
  rfl

/- ## Event-stream bridge (event-stream-service.js) -/

/-- SSE frames the bridge can emit (`shared-constants/event-statuses.js`). -/
inductive SseFrame where
  | canDequeue (checkingInExpiration : Nat)
  | queuePositionUpdate (position : Nat)
  | checkinWindowExpired
  deriving DecidableEq, Repr

/-- A parsed `queue-positions` message / cached snapshot:
`{ queuedParties: [{ partyID, row }] }`. -/
structure QueuePositionsMessage where
  queuedParties : List (String × Nat)
  deriving DecidableEq, Repr

/-- Observable outcome of a bridge handler: the frames written to the
response, the channels unsubscribed, and whether the stream was ended. -/
structure BridgeOutcome where
  frames : List SseFrame
  unsubscribed : List String
  streamEnded : Bool
  deriving DecidableEq, Repr

/-- `queuePositionHandler`: an empty snapshot or a snapshot not containing
the client is logged and ignored; otherwise the client's row is emitted. -/
def queuePositionHandler (msg : QueuePositionsMessage) (pid : String) : List SseFrame :=
  if msg.queuedParties.isEmpty then []
  else
    match msg.queuedParties.find? (fun q => q.1 == pid) with
    | none => []
    | some q => [SseFrame.queuePositionUpdate q.2]

/-- `checkinExpiredChannelHandler`: when the client's id is in the message it
emits `CHECKIN_WINDOW_EXPIRED`, unsubscribes the check-in-expired and
queue-positions channels (the source passes exactly these two to
`unsubscribe`) and ends the stream. -/
def checkinExpiredChannelHandler (partyIDs : List String) (pid : String) : BridgeOutcome :=
  if pid ∈ partyIDs then
    { frames := [SseFrame.checkinWindowExpired],
      unsubscribed := [CHANNEL_CHECKING_IN_EXPIRED, CHANNEL_QUEUE_POSITIONS],
      streamEnded := true }
  else { frames := [], unsubscribed := [], streamEnded := false }

/-- The frames produced by applying the queue-position handler to the cached
snapshot, when one is present (`passInitialMessages`, second half). -/
def initialCacheFrames (party : PartyRow) (cache : Option QueuePositionsMessage) :
    List SseFrame :=
  match cache with
  | some m => queuePositionHandler m party.party_id
  | none => []

/-- `passInitialMessages`: the initial catch-up of a fresh event-stream
connection.  When the party is checking in (with a persisted expiration) it
emits `CAN_DEQUEUE` and unsubscribes `dequeue` and `queue-positions`; it then
reads the cached queue-positions snapshot *unconditionally* and applies the
queue-position handler to it. -/
def passInitialMessages (party : PartyRow) (cache : Option QueuePositionsMessage) :
    BridgeOutcome :=
  let first :=
    match party.status, party.checkin_expiration with
    | PartyStatus.checkingIn, some e =>
      ([SseFrame.canDequeue e], [CHANNEL_DEQUEUE, CHANNEL_QUEUE_POSITIONS])
    | _, _ => ([], [])
  { frames := first.1 ++ initialCacheFrames party cache,
    unsubscribed := first.2,
    streamEnded := false }

/-- C6 counterexample: for a checking-in party whose id is present in the
cached queue-positions snapshot, the bridge emits the cached queue-position
frame *in addition to* `CAN_DEQUEUE` — the cache read is not restricted to
the non-checking-in case, so the frames are not the single `CAN_DEQUEUE`
frame the claim predicts. -/
theorem C6_counterexample :
    (passInitialMessages
        ⟨"A", 2, 0, PartyStatus.checkingIn, some 100, none⟩
        (some ⟨[("A", 1)]⟩)).frames
      = [SseFrame.canDequeue 100, SseFrame.queuePositionUpdate 1]
    ∧ (passInitialMessages
        ⟨"A", 2, 0, PartyStatus.checkingIn, some 100, none⟩
        (some ⟨[("A", 1)]⟩)).frames
      ≠ [SseFrame.canDequeue 100] := by
  exact ⟨rfl, by decide⟩

/-- C6 (amended): on initial catch-up, if the party's status is checking-in
with a persisted expiration the bridge emits `CAN_DEQUEUE` with that
expiration and unsubscribes `dequeue` and `queue-positions`; in *every* case
(not only the other one) it then reads the cached snapshot if present and
applies the queue-position handler to it, appending that handler's frames. -/
theorem C6_initial_catchup_characterization
    (party : PartyRow) (cache : Option QueuePositionsMessage) :
    ((party.status = PartyStatus.checkingIn ∧ party.checkin_expiration.isSome) →
      ∃ e, party.checkin_expiration = some e
        ∧ passInitialMessages party cache
            = { frames := SseFrame.canDequeue e :: initialCacheFrames party cache,
                unsubscribed := [CHANNEL_DEQUEUE, CHANNEL_QUEUE_POSITIONS],
                streamEnded := false })
    ∧ (¬ (party.status = PartyStatus.checkingIn ∧ party.checkin_expiration.isSome) →
      passInitialMessages party cache
        = { frames := initialCacheFrames party cache,
            unsubscribed := [],
            streamEnded := false }) := by
  constructor
  · rintro ⟨hst, hexp⟩
    obtain ⟨e, he⟩ := Option.isSome_iff_exists.mp hexp
    refine ⟨e, he, ?_⟩
    unfold passInitialMessages
    rw [hst, he]
    rfl
  · intro hneg
    unfold passInitialMessages
    cases hst : party.status <;> cases he : party.checkin_expiration <;> try rfl
    exact absurd ⟨hst, by rw [he]; rfl⟩ hneg

/-- Witness for C6 (amended), at a concrete checking-in party and cached
snapshot. -/
theorem C6_witness :
    ∃ e, (PartyRow.mk "A" 2 0 PartyStatus.checkingIn (some 100) none).checkin_expiration
          = some e
      ∧ passInitialMessages
            ⟨"A", 2, 0, PartyStatus.checkingIn, some 100, none⟩ (some ⟨[("A", 1)]⟩)
          = { frames := SseFrame.canDequeue e
                :: initialCacheFrames
                      ⟨"A", 2, 0, PartyStatus.checkingIn, some 100, none⟩
                      (some ⟨[("A", 1)]⟩),
              unsubscribed := [CHANNEL_DEQUEUE, CHANNEL_QUEUE_POSITIONS],
              streamEnded := false } :=
  (C6_initial_catchup_characterization
      ⟨"A", 2, 0, PartyStatus.checkingIn, some 100, none⟩ (some ⟨[("A", 1)]⟩)).1
    ⟨rfl, rfl⟩

/-- C7 counterexample: when the client's id is in a check-in-expired
message, the handler does emit `CHECKIN_WINDOW_EXPIRED` and does end the
stream — but the `dequeue` channel is *not* among the channels it
unsubscribes (only check-in-expired and queue-positions are), contradicting
the claim's "unsubscribes from all of its subscribed channels". -/
theorem C7_counterexample :
    "A" ∈ ["A"]
    ∧ (checkinExpiredChannelHandler ["A"] "A").frames = [SseFrame.checkinWindowExpired]
    ∧ (checkinExpiredChannelHandler ["A"] "A").streamEnded = true
    ∧ CHANNEL_DEQUEUE ∉ (checkinExpiredChannelHandler ["A"] "A").unsubscribed := by
  refine ⟨by decide, rfl, rfl, by decide⟩

/-- C7 (amended): for a check-in-expired message containing the client's
party id the bridge emits `CHECKIN_WINDOW_EXPIRED`, unsubscribes the
check-in-expired and queue-positions channels (leaving the dequeue channel
subscription in place) and ends the SSE stream; when the id is not in the
message nothing is emitted and no subscription changes. -/
theorem C7_checkin_expired_handler_characterization
    (partyIDs : List String) (pid : String) :
    (pid ∈ partyIDs →
      checkinExpiredChannelHandler partyIDs pid
        = { frames := [SseFrame.checkinWindowExpired],
            unsubscribed := [CHANNEL_CHECKING_IN_EXPIRED, CHANNEL_QUEUE_POSITIONS],
            streamEnded := true })
    ∧ (pid ∉ partyIDs →
      checkinExpiredChannelHandler partyIDs pid
        = { frames := [], unsubscribed := [], streamEnded := false }) := by
  constructor
  · intro h
    unfold checkinExpiredChannelHandler
    rw [if_pos h]
  · intro h
    unfold checkinExpiredChannelHandler
    rw [if_neg h]

/-- Witness for C7 (amended) at a concrete message and client. -/
theorem C7_witness :
    checkinExpiredChannelHandler ["A"] "A"
      = { frames := [SseFrame.checkinWindowExpired],
          unsubscribed := [CHANNEL_CHECKING_IN_EXPIRED, CHANNEL_QUEUE_POSITIONS],
          streamEnded := true } :=
  (C7_checkin_expired_handler_characterization ["A"] "A").1 (by decide)

/- ## Session-bound API (src/controllers/parties/party-controller.js) -/

/-- The party-related keys a cookie session may carry. -/
structure Session where
  partyID : Option String
  partySize : Option Nat
  status : Option PartyStatus
  seated : Option Bool
  initialQueuePosition : Option Nat
  seatExpiresAt : Option Nat
  deriving DecidableEq, Repr

/-- `clearPartySession` (src/utils/clear-party-session.js): deletes
`partyID`, `partySize`, `status`, `seated` and `seatExpiresAt` from the
session.  `initialQueuePosition` is not among the deleted keys. -/
def clearPartySession (s : Session) : Session :=
  { s with partyID := none, partySize := none, status := none,
           seated := none, seatExpiresAt := none }

/-- JavaScript falsiness of the session's `partyID`:
`!partyID` is true for a missing key and for the empty string. -/
def missingPartyID : Option String → Bool
  | none => true
  | some s => s.isEmpty

/-- JavaScript falsiness of the session's `partySize`:
`!partySize` is true for a missing key and for 0. -/
def missingPartySize : Option Nat → Bool
  | none => true
  | some n => n == 0

/-- Observable outcome of one API handler invocation. -/
structure ApiOutcome where
  statusCode : Nat
  session : Session
  rows : List PartyRow
  storeInvoked : Bool
  scheduledSeatExpiredJob : Option Nat
  dequeueJobsEnqueued : Nat
  deriving DecidableEq, Repr

/-- The 401 path shared by `checkInParty` and `deleteParty`: clear the party
session keys and answer Unauthorized without touching the store. -/
def unauthorizedOutcome (sess : Session) (rows : List PartyRow) : ApiOutcome :=
  { statusCode := 401, session := clearPartySession sess, rows := rows,
    storeInvoked := false, scheduledSeatExpiredJob := none,
    dequeueJobsEnqueued := 0 }

/-- `checkInParty` (PATCH /party/check-in): guarded by the session's
`partyID` and `partySize`; on success it schedules the seat-expired job at
the returned expiration and stores `seatExpiresAt` and `status = seated` in
the session.  The size passed to the store is the *session's* `partySize`
(`parseInt(partySize)`), not the row's `size` column. -/
def checkInParty (sess : Session) (rows : List PartyRow) (now : Nat) : ApiOutcome :=
  if missingPartyID sess.partyID || missingPartySize sess.partySize then
    unauthorizedOutcome sess rows
  else
    match sess.partyID, sess.partySize with
    | some pid, some psize =>
      let res := updateSeatedStatus rows now pid psize
      match res.1.1 with
      | some e =>
        { statusCode := 400,
          session := if e = PARTY_NOT_FOUND then clearPartySession sess else sess,
          rows := res.2, storeInvoked := true, scheduledSeatExpiredJob := none,
          dequeueJobsEnqueued := 0 }
      | none =>
        { statusCode := 200,
          session := { sess with
            seatExpiresAt := res.1.2,
            partyID := some pid,
            status := some PartyStatus.seated },
          rows := res.2, storeInvoked := true, scheduledSeatExpiredJob := res.1.2,
          dequeueJobsEnqueued := 0 }
    | _, _ => unauthorizedOutcome sess rows

/-- `deleteParty` (DELETE /party): guarded like `checkInParty`; on success it
clears the session and enqueues a dequeue job. -/
def deleteParty (sess : Session) (rows : List PartyRow) : ApiOutcome :=
  if missingPartyID sess.partyID || missingPartySize sess.partySize then
    unauthorizedOutcome sess rows
  else
    match sess.partyID with
    | some pid =>
      let res := deletePartyByID rows pid
      match res.1 with
      | some e =>
        { statusCode := 400,
          session := if e = PARTY_NOT_FOUND then clearPartySession sess else sess,
          rows := res.2, storeInvoked := true, scheduledSeatExpiredJob := none,
          dequeueJobsEnqueued := 0 }
      | none =>
        { statusCode := 204, session := clearPartySession sess, rows := res.2,
          storeInvoked := true, scheduledSeatExpiredJob := none,
          dequeueJobsEnqueued := 1 }
    | none => unauthorizedOutcome sess rows

/-- C8: a successful check-in computes the seat expiration from the
session's `partySize`, not from the row's `size` column:
`seat_expiration = now + SERVICE_TIME_SECONDS * session.partySize`, for any
value of the stored row's `size`. -/
theorem C8_seat_expiration_uses_session_size
    (sess : Session) (rows : List PartyRow) (now : Nat) (pid : String) (psize : Nat)
    (r : PartyRow)
    (hpid : sess.partyID = some pid) (hsz : sess.partySize = some psize)
    (hne : pid.isEmpty = false) (hnz : psize ≠ 0)
    (hnd : (rows.map PartyRow.party_id).Nodup)
    (hr : r ∈ rows) (hrid : r.party_id = pid) (hst : r.status = PartyStatus.checkingIn) :
    (checkInParty sess rows now).statusCode = 200
    ∧ (checkInParty sess rows now).session.seatExpiresAt
        = some (now + SERVICE_TIME_SECONDS * psize)
    ∧ (checkInParty sess rows now).scheduledSeatExpiredJob
        = some (now + SERVICE_TIME_SECONDS * psize)
    ∧ ∀ r' ∈ (checkInParty sess rows now).rows, r'.party_id = pid →
        r'.seat_expiration = some (now + SERVICE_TIME_SECONDS * psize) := by
  have hguard : (missingPartyID sess.partyID || missingPartySize sess.partySize) = false := by
    rw [hpid, hsz]
    simp [missingPartyID, missingPartySize, hne, hnz]
  have hchar := (updateSeatedStatus_characterization rows now pid psize hnd).1
    ⟨r, hr, hrid, hst⟩
  have hres : (updateSeatedStatus rows now pid psize).1
      = (none, some (now + SERVICE_TIME_SECONDS * psize)) := hchar.1
  have hred : checkInParty sess rows now
      = { statusCode := 200,
          session := { sess with
            seatExpiresAt := some (now + SERVICE_TIME_SECONDS * psize),
            partyID := some pid,
            status := some PartyStatus.seated },
          rows := (updateSeatedStatus rows now pid psize).2,
          storeInvoked := true,
          scheduledSeatExpiredJob := some (now + SERVICE_TIME_SECONDS * psize),
          dequeueJobsEnqueued := 0 } := by
    unfold checkInParty
    rw [hguard, hpid, hsz]
    simp only [Bool.false_eq_true, if_false, hres]
  rw [hred]
  refine ⟨rfl, rfl, rfl, ?_⟩
  intro r' hr' hpid'
  exact (hchar.2.1 r' hr' hpid').2

/-- Witness for C8: the stored row has `size = 2` but the session says
`partySize = 5`; the computed expiration is `SERVICE_TIME_SECONDS * 5`,
which differs from the row-size-based value `SERVICE_TIME_SECONDS * 2`. -/
theorem C8_witness :
    ((checkInParty
        ⟨some "A", some 5, none, none, none, none⟩
        [⟨"A", 2, 0, PartyStatus.checkingIn, some 60, none⟩] 0).statusCode = 200
      ∧ (checkInParty
          ⟨some "A", some 5, none, none, none, none⟩
          [⟨"A", 2, 0, PartyStatus.checkingIn, some 60, none⟩] 0).session.seatExpiresAt
        = some (0 + SERVICE_TIME_SECONDS * 5)
      ∧ (checkInParty
          ⟨some "A", some 5, none, none, none, none⟩
          [⟨"A", 2, 0, PartyStatus.checkingIn, some 60, none⟩] 0).scheduledSeatExpiredJob
        = some (0 + SERVICE_TIME_SECONDS * 5)
      ∧ ∀ r' ∈ (checkInParty
          ⟨some "A", some 5, none, none, none, none⟩
          [⟨"A", 2, 0, PartyStatus.checkingIn, some 60, none⟩] 0).rows,
          r'.party_id = "A" →
          r'.seat_expiration = some (0 + SERVICE_TIME_SECONDS * 5))
    ∧ 0 + SERVICE_TIME_SECONDS * 5 ≠ 0 + SERVICE_TIME_SECONDS * 2 := by
  refine ⟨?_, by decide⟩
  exact C8_seat_expiration_uses_session_size
    ⟨some "A", some 5, none, none, none, none⟩
    [⟨"A", 2, 0, PartyStatus.checkingIn, some 60, none⟩] 0 "A" 5
    ⟨"A", 2, 0, PartyStatus.checkingIn, some 60, none⟩
    rfl rfl rfl (by decide) (by decide) (by simp) rfl rfl

/-- C10 counterexample: a check-in request whose session is missing
`partyID` but still carries `initialQueuePosition = 3` answers 401 without
touching the store — yet `initialQueuePosition` survives in the session, so
not *all* party-related session keys are cleared. -/
theorem C10_counterexample :
    (checkInParty ⟨none, some 2, none, none, some 3, none⟩ [] 0).statusCode = 401
    ∧ (checkInParty
        ⟨none, some 2, none, none, some 3, none⟩ [] 0).session.initialQueuePosition
      = some 3
    ∧ some 3 ≠ (none : Option Nat) := by
  refine ⟨rfl, rfl, by decide⟩

/-- C10 (amended): a check-in or leave-queue request whose session fails the
`partyID`/`partySize` guard answers 401 Unauthorized, invokes no store
operation and leaves the table unchanged, and clears the `partyID`,
`partySize`, `status`, `seated` and `seatExpiresAt` session keys —
`initialQueuePosition` is left in the session. -/
theorem C10_unauthorized_clears_session_except_position
    (sess : Session) (rows : List PartyRow) (now : Nat)
    (h : missingPartyID sess.partyID = true ∨ missingPartySize sess.partySize = true) :
    (checkInParty sess rows now).statusCode = 401
    ∧ (checkInParty sess rows now).rows = rows
    ∧ (checkInParty sess rows now).storeInvoked = false
    ∧ (checkInParty sess rows now).session = clearPartySession sess
    ∧ (deleteParty sess rows).statusCode = 401
    ∧ (deleteParty sess rows).rows = rows
    ∧ (deleteParty sess rows).storeInvoked = false
    ∧ (deleteParty sess rows).session = clearPartySession sess
    ∧ (clearPartySession sess).partyID = none
    ∧ (clearPartySession sess).partySize = none
    ∧ (clearPartySession sess).status = none
    ∧ (clearPartySession sess).seated = none
    ∧ (clearPartySession sess).seatExpiresAt = none
    ∧ (clearPartySession sess).initialQueuePosition = sess.initialQueuePosition := by
  have hguard : (missingPartyID sess.partyID || missingPartySize sess.partySize) = true := by
    rcases h with h | h <;> simp [h]
  have h1 : checkInParty sess rows now = unauthorizedOutcome sess rows := by
    unfold checkInParty
    rw [hguard]
    rfl
  have h2 : deleteParty sess rows = unauthorizedOutcome sess rows := by
    unfold deleteParty
    rw [hguard]
    rfl
  rw [h1, h2]
  exact ⟨rfl, rfl, rfl, rfl, rfl, rfl, rfl, rfl, rfl, rfl, rfl, rfl, rfl, rfl⟩

/-- Witness for C10 (amended) at a concrete session missing `partyID`. -/
theorem C10_witness :
    (checkInParty ⟨none, some 2, some PartyStatus.queued, none, some 3, none⟩ [] 0).statusCode
      = 401
    ∧ (checkInParty
        ⟨none, some 2, some PartyStatus.queued, none, some 3, none⟩ [] 0).rows = []
    ∧ (checkInParty
        ⟨none, some 2, some PartyStatus.queued, none, some 3, none⟩ [] 0).storeInvoked
      = false
    ∧ (checkInParty
        ⟨none, some 2, some PartyStatus.queued, none, some 3, none⟩ [] 0).session
      = clearPartySession ⟨none, some 2, some PartyStatus.queued, none, some 3, none⟩
    ∧ (deleteParty
        ⟨none, some 2, some PartyStatus.queued, none, some 3, none⟩ []).statusCode = 401
    ∧ (deleteParty
        ⟨none, some 2, some PartyStatus.queued, none, some 3, none⟩ []).rows = []
    ∧ (deleteParty
        ⟨none, some 2, some PartyStatus.queued, none, some 3, none⟩ []).storeInvoked
      = false
    ∧ (deleteParty
        ⟨none, some 2, some PartyStatus.queued, none, some 3, none⟩ []).session
      = clearPartySession ⟨none, some 2, some PartyStatus.queued, none, some 3, none⟩
    ∧ (clearPartySession
        ⟨none, some 2, some PartyStatus.queued, none, some 3, none⟩).partyID = none
    ∧ (clearPartySession
        ⟨none, some 2, some PartyStatus.queued, none, some 3, none⟩).partySize = none
    ∧ (clearPartySession
        ⟨none, some 2, some PartyStatus.queued, none, some 3, none⟩).status = none
    ∧ (clearPartySession
        ⟨none, some 2, some PartyStatus.queued, none, some 3, none⟩).seated = none
    ∧ (clearPartySession
        ⟨none, some 2, some PartyStatus.queued, none, some 3, none⟩).seatExpiresAt = none
    ∧ (clearPartySession
        ⟨none, some 2, some PartyStatus.queued, none, some 3,
          none⟩).initialQueuePosition
      = (Session.mk none (some 2) (some PartyStatus.queued) none (some 3)
          none).initialQueuePosition :=
  C10_unauthorized_clears_session_except_position
    ⟨none, some 2, some PartyStatus.queued, none, some 3, none⟩ [] 0 (Or.inl rfl)

/- ## Permutation and sorting machinery for the dequeue-run claims -/

theorem mem_filter_isQueued {rows : List PartyRow} {r : PartyRow}
    (h : r ∈ rows.filter isQueued) : r.status = PartyStatus.queued := by
  have h2 := (List.mem_filter.mp h).2
  simpa [isQueued] using h2

theorem sortedQueue_sorted (rows : List PartyRow) :
    List.Sorted keyLE (sortedQueue rows) :=
  List.sorted_insertionSort keyLE (rows.filter isQueued)

theorem sortedQueue_perm (rows : List PartyRow) :
    (sortedQueue rows).Perm (rows.filter isQueued) :=
  List.perm_insertionSort keyLE (rows.filter isQueued)

theorem mem_sortedQueue_queued {rows : List PartyRow} {r : PartyRow}
    (h : r ∈ sortedQueue rows) : r.status = PartyStatus.queued :=
  mem_filter_isQueued ((sortedQueue_perm rows).mem_iff.mp h)

/-- Two sorted permutations of each other with pairwise-distinct party ids
are equal: the canonical queue order is deterministic. -/
theorem sorted_perm_eq_of_nodup_ids {l₁ : List PartyRow} :
    ∀ {l₂ : List PartyRow}, l₁.Perm l₂ → List.Sorted keyLE l₁ →
      List.Sorted keyLE l₂ → (l₁.map PartyRow.party_id).Nodup → l₁ = l₂ := by
  induction l₁ with
  | nil =>
    intro l₂ hp _ _ _
    exact hp.nil_eq
  | cons a t₁ ih =>
    intro l₂ hp hs₁ hs₂ hnd
    cases l₂ with
    | nil =>
      have := hp.length_eq
      simp at this
    | cons b t₂ =>
      have ha : a ∈ b :: t₂ := hp.subset (List.mem_cons_self a t₁)
      have hb : b ∈ a :: t₁ := hp.symm.subset (List.mem_cons_self b t₂)
      have hab : a = b := by
        rcases List.mem_cons.mp ha with h | h
        · exact h
        rcases List.mem_cons.mp hb with h2 | h2
        · exact h2.symm
        · have h3 : keyLE a b := List.rel_of_sorted_cons hs₁ b h2
          have h4 : keyLE b a := List.rel_of_sorted_cons hs₂ a h
          have hkey := keyLE_antisymm h3 h4
          exfalso
          rw [List.map_cons] at hnd
          have hmem : a.party_id ∈ t₁.map PartyRow.party_id := by
            rw [hkey.2]
            exact List.mem_map_of_mem PartyRow.party_id h2
          exact (List.nodup_cons.mp hnd).1 hmem
      subst hab
      have hpt : t₁.Perm t₂ := hp.cons_inv
      have hnd' : (t₁.map PartyRow.party_id).Nodup := by
        rw [List.map_cons] at hnd
        exact (List.nodup_cons.mp hnd).2
      rw [ih hpt hs₁.of_cons hs₂.of_cons hnd']

/-- When the greedy selection stops with `h` as the next queued row, `h` does
not fit into what remains of the budget. -/
theorem greedyTake_stop :
    ∀ (l : List PartyRow) (a : Int) (h : PartyRow) (t : List PartyRow),
      l = greedyTake a l ++ h :: t →
      ¬ ((h.size : Int) ≤ a - sumSizes (greedyTake a l)) := by
  intro l
  induction l with
  | nil =>
    intro a h t heq
    simp [greedyTake] at heq
  | cons r rest ih =>
    intro a h t heq
    by_cases hr : (r.size : Int) ≤ a
    · simp only [greedyTake, if_pos hr] at heq ⊢
      rw [List.cons_append, List.cons.injEq] at heq
      have heq' := heq.2
      intro hc
      apply ih (a - r.size) h t heq'
      have hs : sumSizes (r :: greedyTake (a - (r.size : Int)) rest)
          = r.size + sumSizes (greedyTake (a - (r.size : Int)) rest) := by
        simp [sumSizes]
      rw [hs] at hc
      push_cast at hc ⊢
      omega
    · simp only [greedyTake, if_neg hr] at heq ⊢
      rw [List.nil_append, List.cons.injEq] at heq
      rw [← heq.1]
      simpa [sumSizes] using hr

/-- The heart of the dequeue-run analysis.  Flipping exactly the selected
parties to checking-in (a) raises the occupied seat count at every time by
exactly the selection's combined size, and (b) leaves as queued rows exactly
the part of the canonical queue after the selection, in the same order. -/
theorem dequeue_selection_decomposition (rows : List PartyRow) (now : Nat) (a : Int)
    (hnd : (rows.map PartyRow.party_id).Nodup) :
    (∀ t, occupiedSeats (setCheckingInStatus rows now (getPartiesToDequeue rows a)).1 t
        = occupiedSeats rows t + sumSizes (greedyTake a (sortedQueue rows)))
    ∧ sortedQueue (setCheckingInStatus rows now (getPartiesToDequeue rows a)).1
        = (sortedQueue rows).drop (greedyTake a (sortedQueue rows)).length := by
  set L := sortedQueue rows with hL
  set G := greedyTake a L with hG
  set R := L.drop G.length with hR
  set NQ := rows.filter (fun r => !isQueued r) with hNQ
  set sel := getPartiesToDequeue rows a with hselDef
  have hsel : sel = G.map PartyRow.party_id := by
    rw [hselDef, hG, hL]
    exact getPartiesToDequeue_eq_greedy rows a
  have hLGR : L = G ++ R := by
    conv_lhs => rw [← List.take_append_drop G.length L]
    rw [hR]
    congr 1
    rw [hG]
    exact (greedyTake_eq_take a L).symm
  have hflip : (setCheckingInStatus rows now sel).1
      = rows.map (fun r => if r.party_id ∈ sel then checkinRow now r else r) := rfl
  have prowsLNQ : rows.Perm (L ++ NQ) := by
    have h1 := List.filter_append_perm isQueued rows
    have h2 : (L ++ NQ).Perm (rows.filter isQueued ++ NQ) :=
      (sortedQueue_perm rows).append_right NQ
    exact (h2.trans h1).symm
  have hnd2 : ((G ++ (R ++ NQ)).map PartyRow.party_id).Nodup := by
    have h3 : (rows.map PartyRow.party_id).Perm ((L ++ NQ).map PartyRow.party_id) :=
      prowsLNQ.map PartyRow.party_id
    have h4 := h3.nodup_iff.mp hnd
    rw [hLGR, List.append_assoc] at h4
    exact h4
  have hdisj : ∀ r ∈ R ++ NQ, r.party_id ∉ G.map PartyRow.party_id := by
    intro r hr hmem
    rw [List.map_append] at hnd2
    have hdj := (List.nodup_append.mp hnd2).2.2
    exact hdj hmem (List.mem_map_of_mem PartyRow.party_id hr)
  have hfG : ∀ r ∈ G,
      (if r.party_id ∈ sel then checkinRow now r else r) = checkinRow now r := by
    intro r hr
    exact if_pos (by rw [hsel]; exact List.mem_map_of_mem PartyRow.party_id hr)
  have hfRNQ : ∀ r ∈ R ++ NQ,
      (if r.party_id ∈ sel then checkinRow now r else r) = r := by
    intro r hr
    exact if_neg (by rw [hsel]; exact hdisj r hr)
  have hsplit : (L ++ NQ).map (fun r => if r.party_id ∈ sel then checkinRow now r else r)
      = G.map (checkinRow now) ++ (R ++ NQ) := by
    rw [hLGR, List.append_assoc, List.map_append]
    congr 1
    · exact List.map_congr_left hfG
    · rw [List.map_congr_left hfRNQ]
      exact List.map_id' _
  have hperm2 : ((setCheckingInStatus rows now sel).1).Perm
      (G.map (checkinRow now) ++ (R ++ NQ)) := by
    rw [hflip, ← hsplit]
    exact prowsLNQ.map _
  have hoccG0 : ∀ t : Nat, (G.map (occSize t)).sum = 0 := by
    intro t
    apply List.sum_eq_zero
    intro x hx
    rw [List.mem_map] at hx
    obtain ⟨r, hr, hxr⟩ := hx
    have hrL : r ∈ sortedQueue rows := by
      rw [← hL, hLGR]
      exact List.mem_append_left R hr
    have hq : r.status = PartyStatus.queued := mem_sortedQueue_queued hrL
    rw [← hxr]
    simp [occSize, hq]
  have hoccCf : ∀ t : Nat, ((G.map (checkinRow now)).map (occSize t)).sum = sumSizes G := by
    intro t
    rw [List.map_map]
    have hpt : ∀ r ∈ G, (occSize t ∘ checkinRow now) r = PartyRow.size r :=
      fun r _ => rfl
    rw [List.map_congr_left hpt]
    rfl
  have hoccEq : ∀ t, occupiedSeats (setCheckingInStatus rows now sel).1 t
      = occupiedSeats rows t + sumSizes G := by
    intro t
    have h5 : occupiedSeats (setCheckingInStatus rows now sel).1 t
        = ((G.map (checkinRow now) ++ (R ++ NQ)).map (occSize t)).sum :=
      (hperm2.map (occSize t)).sum_eq
    have h6 : occupiedSeats rows t = ((G ++ (R ++ NQ)).map (occSize t)).sum := by
      have h7 := (prowsLNQ.map (occSize t)).sum_eq
      rw [occupiedSeats, h7, hLGR, List.append_assoc]
    rw [h5, h6]
    simp only [List.map_append, List.sum_append]
    rw [hoccCf t, hoccG0 t]
    omega
  have hfq : (((setCheckingInStatus rows now sel).1).filter isQueued).Perm R := by
    have h7 : (((setCheckingInStatus rows now sel).1).filter isQueued).Perm
        ((G.map (checkinRow now) ++ (R ++ NQ)).filter isQueued) := hperm2.filter isQueued
    have h8 : (G.map (checkinRow now)).filter isQueued = [] := by
      apply List.filter_eq_nil_iff.mpr
      intro r hr
      rw [List.mem_map] at hr
      obtain ⟨r₀, _, hr₀⟩ := hr
      rw [← hr₀]
      simp [isQueued, checkinRow]
    have h9 : R.filter isQueued = R := by
      apply List.filter_eq_self.mpr
      intro r hr
      have hrL : r ∈ sortedQueue rows := by
        rw [← hL, hLGR]
        exact List.mem_append_right G hr
      have hq : r.status = PartyStatus.queued := mem_sortedQueue_queued hrL
      simp [isQueued, hq]
    have h10 : NQ.filter isQueued = [] := by
      apply List.filter_eq_nil_iff.mpr
      intro r hr
      rw [hNQ, List.mem_filter] at hr
      simpa using hr.2
    rw [List.filter_append, List.filter_append, h8, h9, h10, List.nil_append,
      List.append_nil] at h7
    exact h7
  have hRsorted : List.Sorted keyLE R := by
    rw [hR, hL]
    exact List.Pairwise.sublist (List.drop_sublist _ _) (sortedQueue_sorted rows)
  have hndR : (R.map PartyRow.party_id).Nodup := by
    have hsub : List.Sublist (R.map PartyRow.party_id)
        ((G ++ (R ++ NQ)).map PartyRow.party_id) := by
      apply List.Sublist.map
      exact (List.sublist_append_left R NQ).trans (List.sublist_append_right G (R ++ NQ))
    exact hnd2.sublist hsub
  have hndSQ : ((sortedQueue (setCheckingInStatus rows now sel).1).map
      PartyRow.party_id).Nodup := by
    have hp : (sortedQueue (setCheckingInStatus rows now sel).1).Perm R :=
      (sortedQueue_perm _).trans hfq
    exact ((hp.map PartyRow.party_id).nodup_iff).mpr hndR
  have hQeq : sortedQueue (setCheckingInStatus rows now sel).1 = R :=
    sorted_perm_eq_of_nodup_ids ((sortedQueue_perm _).trans hfq)
      (sortedQueue_sorted _) hRsorted hndSQ
  exact ⟨hoccEq, hQeq⟩

theorem handleDequeueUpdates_fst (rows : List PartyRow) (now : Nat) (a : Int) :
    (handleDequeueUpdates rows now a).1 =
      if (getPartiesToDequeue rows a).isEmpty then rows
      else (setCheckingInStatus rows now (getPartiesToDequeue rows a)).1 := by
  unfold handleDequeueUpdates
  by_cases h : (getPartiesToDequeue rows a).isEmpty
  · simp [h]
  · simp only [h, Bool.false_eq_true, if_false]
    cases hexp : (setCheckingInStatus rows now (getPartiesToDequeue rows a)).2 <;> simp

theorem dequeueUsers_fst (rows : List PartyRow) (now : Nat) :
    (dequeueUsers rows now).1 =
      if getAvailableSeatCount rows now > 0 then
        (handleDequeueUpdates rows now (getAvailableSeatCount rows now)).1
      else rows := by
  unfold dequeueUsers
  by_cases h : getAvailableSeatCount rows now > 0 <;> simp [h]

/-- The queue-positions messages published during a run, in order. -/
def queuePosBroadcasts (effs : List DequeueEffect) : List (List (String × Nat)) :=
  effs.filterMap (fun e => match e with
    | DequeueEffect.publishQueuePositions q => some q
    | _ => none)

theorem queuePosBroadcasts_handleDequeueUpdates (rows : List PartyRow) (now : Nat)
    (a : Int) : queuePosBroadcasts (handleDequeueUpdates rows now a).2 = [] := by
  unfold handleDequeueUpdates
  by_cases h : (getPartiesToDequeue rows a).isEmpty
  · simp [h, queuePosBroadcasts]
  · simp only [h, Bool.false_eq_true, if_false]
    cases hexp : (setCheckingInStatus rows now (getPartiesToDequeue rows a)).2 <;>
      simp [queuePosBroadcasts]

theorem queuePosBroadcasts_dequeueUsers (rows : List PartyRow) (now : Nat) :
    queuePosBroadcasts (dequeueUsers rows now).2
      = [getCurrentQueuePositions (dequeueUsers rows now).1] := by
  rw [dequeueUsers_fst]
  unfold dequeueUsers
  by_cases h : getAvailableSeatCount rows now > 0
  · simp only [h, if_true, queuePosBroadcasts, List.filterMap_append]
    have h2 := queuePosBroadcasts_handleDequeueUpdates rows now (getAvailableSeatCount rows now)
    unfold queuePosBroadcasts at h2
    rw [h2]
    rfl
  · simp only [h, if_false, queuePosBroadcasts, List.filterMap_append]
    rfl

/-- Re-running the dequeue service on its own output (same clock) changes no
row: the run's selection admitted the longest fitting front segment, so the
new head of the queue no longer fits into what is left of the capacity. -/
theorem dequeueUsers_idempotent_rows (rows : List PartyRow) (now : Nat)
    (hnd : (rows.map PartyRow.party_id).Nodup) :
    (dequeueUsers (dequeueUsers rows now).1 now).1 = (dequeueUsers rows now).1 := by
  by_cases hav : getAvailableSeatCount rows now > 0
  case neg =>
    have h1 : (dequeueUsers rows now).1 = rows := by
      rw [dequeueUsers_fst, if_neg hav]
    rw [h1, dequeueUsers_fst, if_neg hav]
  case pos =>
    by_cases hsel : (getPartiesToDequeue rows (getAvailableSeatCount rows now)).isEmpty
    · have h1 : (dequeueUsers rows now).1 = rows := by
        rw [dequeueUsers_fst, if_pos hav, handleDequeueUpdates_fst, if_pos hsel]
      rw [h1, dequeueUsers_fst, if_pos hav, handleDequeueUpdates_fst, if_pos hsel]
    · have h1 : (dequeueUsers rows now).1
          = (setCheckingInStatus rows now
              (getPartiesToDequeue rows (getAvailableSeatCount rows now))).1 := by
        rw [dequeueUsers_fst, if_pos hav, handleDequeueUpdates_fst, if_neg hsel]
      have hdec := dequeue_selection_decomposition rows now
        (getAvailableSeatCount rows now) hnd
      have hocc1 : occupiedSeats (dequeueUsers rows now).1 now
          = occupiedSeats rows now
            + sumSizes (greedyTake (getAvailableSeatCount rows now) (sortedQueue rows)) := by
        rw [h1]
        exact hdec.1 now
      have hav2 : getAvailableSeatCount (dequeueUsers rows now).1 now
          = getAvailableSeatCount rows now
            - sumSizes (greedyTake (getAvailableSeatCount rows now) (sortedQueue rows)) := by
        unfold getAvailableSeatCount at *
        rw [hocc1]
        push_cast
        ring
      have hsq1 : sortedQueue (dequeueUsers rows now).1
          = (sortedQueue rows).drop
              (greedyTake (getAvailableSeatCount rows now) (sortedQueue rows)).length := by
        rw [h1]
        exact hdec.2
      by_cases hav' : getAvailableSeatCount (dequeueUsers rows now).1 now > 0
      · have hsel2 : getPartiesToDequeue (dequeueUsers rows now).1
            (getAvailableSeatCount (dequeueUsers rows now).1 now) = [] := by
          rw [getPartiesToDequeue_eq_greedy, hsq1]
          cases hdrop : (sortedQueue rows).drop
              (greedyTake (getAvailableSeatCount rows now) (sortedQueue rows)).length with
          | nil => simp [greedyTake]
          | cons hd tl =>
            have hsplit : sortedQueue rows
                = greedyTake (getAvailableSeatCount rows now) (sortedQueue rows)
                  ++ hd :: tl := by
              conv_lhs => rw [← List.take_append_drop
                (greedyTake (getAvailableSeatCount rows now) (sortedQueue rows)).length
                (sortedQueue rows)]
              rw [hdrop]
              congr 1
              exact (greedyTake_eq_take _ _).symm
            have hstop := greedyTake_stop (sortedQueue rows)
              (getAvailableSeatCount rows now) hd tl hsplit
            rw [hav2]
            simp only [greedyTake, if_neg hstop, List.map_nil]
        have hempty : (getPartiesToDequeue (dequeueUsers rows now).1
            (getAvailableSeatCount (dequeueUsers rows now).1 now)).isEmpty = true := by
          rw [hsel2]
          rfl
        rw [dequeueUsers_fst, if_pos hav', handleDequeueUpdates_fst, if_pos hempty]
      · rw [dequeueUsers_fst, if_neg hav']

/-- C5: running the dequeue service twice in sequence with no intervening
state change and no clock advance is idempotent — the second run flips no
row (it returns the same table) and broadcasts a queue-positions message
identical to the first run's. -/
theorem C5_dequeue_run_idempotent (rows : List PartyRow) (now : Nat)
    (hnd : (rows.map PartyRow.party_id).Nodup) :
    (dequeueUsers (dequeueUsers rows now).1 now).1 = (dequeueUsers rows now).1
    ∧ queuePosBroadcasts (dequeueUsers (dequeueUsers rows now).1 now).2
        = queuePosBroadcasts (dequeueUsers rows now).2 := by
  have h1 := dequeueUsers_idempotent_rows rows now hnd
  refine ⟨h1, ?_⟩
  rw [queuePosBroadcasts_dequeueUsers, queuePosBroadcasts_dequeueUsers, h1]

/-- Witness for C5: one queued party of size 2 at time 0. -/
theorem C5_witness :
    (dequeueUsers (dequeueUsers [⟨"A", 2, 0, PartyStatus.queued, none, none⟩] 0).1 0).1
      = (dequeueUsers [⟨"A", 2, 0, PartyStatus.queued, none, none⟩] 0).1
    ∧ queuePosBroadcasts
        (dequeueUsers (dequeueUsers [⟨"A", 2, 0, PartyStatus.queued, none, none⟩] 0).1 0).2
      = queuePosBroadcasts (dequeueUsers [⟨"A", 2, 0, PartyStatus.queued, none, none⟩] 0).2 :=
  C5_dequeue_run_idempotent [⟨"A", 2, 0, PartyStatus.queued, none, none⟩] 0 (by decide)

/- ## The reachable-state model for the capacity invariant -/

theorem occSize_mono (r : PartyRow) {t₁ t₂ : Nat} (h : t₁ ≤ t₂) :
    occSize t₂ r ≤ occSize t₁ r := by
  unfold occSize
  cases r.status with
  | queued => exact le_refl _
  | checkingIn => exact le_refl _
  | seated =>
    cases r.seat_expiration with
    | none => exact le_refl _
    | some e =>
      dsimp only
      by_cases h1 : t₂ < e
      · rw [if_pos h1, if_pos (show t₁ < e by omega)]
      · rw [if_neg h1]
        exact Nat.zero_le _

theorem occupiedSeats_mono (rows : List PartyRow) {t₁ t₂ : Nat} (h : t₁ ≤ t₂) :
    occupiedSeats rows t₂ ≤ occupiedSeats rows t₁ :=
  List.sum_le_sum (fun r _ => occSize_mono r h)

theorem occupiedSeats_filter_le (p : PartyRow → Bool) (rows : List PartyRow) (t : Nat) :
    occupiedSeats (rows.filter p) t ≤ occupiedSeats rows t := by
  induction rows with
  | nil => exact le_refl _
  | cons r rest ih =>
    rw [List.filter_cons]
    by_cases h : p r
    · rw [if_pos h]
      unfold occupiedSeats at ih ⊢
      simp only [List.map_cons, List.sum_cons]
      omega
    · rw [if_neg h]
      unfold occupiedSeats at ih ⊢
      simp only [List.map_cons, List.sum_cons]
      omega

theorem occupiedSeats_updateSeatedStatus_le
    (rows : List PartyRow) (now : Nat) (pid : String) (psize : Nat) (t : Nat) :
    occupiedSeats (updateSeatedStatus rows now pid psize).2 t
      ≤ occupiedSeats rows t := by
  have hsnd : (updateSeatedStatus rows now pid psize).2
      = rows.map (fun r => if matchesSeatUpdate pid r then seatRow now psize r else r) := by
    unfold updateSeatedStatus
    by_cases h : rows.any (matchesSeatUpdate pid) <;> simp [h]
  rw [hsnd]
  unfold occupiedSeats
  rw [List.map_map]
  apply List.sum_le_sum
  intro r _
  simp only [Function.comp_apply]
  by_cases hm : matchesSeatUpdate pid r
  · rw [if_pos hm]
    have hst : r.status = PartyStatus.checkingIn := by
      simp only [matchesSeatUpdate, Bool.and_eq_true, beq_iff_eq] at hm
      exact hm.2
    have h1 : occSize t r = r.size := by simp [occSize, hst]
    rw [h1]
    by_cases h2 : t < now + SERVICE_TIME_SECONDS * psize
    · simp [occSize, seatRow, h2]
    · simp [occSize, seatRow, h2]
  · rw [if_neg hm]

theorem setCheckingInStatus_map_pid (rows : List PartyRow) (now : Nat)
    (pids : List String) :
    ((setCheckingInStatus rows now pids).1).map PartyRow.party_id
      = rows.map PartyRow.party_id := by
  have h : (setCheckingInStatus rows now pids).1
      = rows.map (fun r => if r.party_id ∈ pids then checkinRow now r else r) := rfl
  rw [h, List.map_map]
  apply List.map_congr_left
  intro r _
  simp only [Function.comp_apply]
  by_cases hm : r.party_id ∈ pids
  · rw [if_pos hm]; rfl
  · rw [if_neg hm]

theorem updateSeatedStatus_map_pid (rows : List PartyRow) (now : Nat)
    (pid : String) (psize : Nat) :
    ((updateSeatedStatus rows now pid psize).2).map PartyRow.party_id
      = rows.map PartyRow.party_id := by
  have hsnd : (updateSeatedStatus rows now pid psize).2
      = rows.map (fun r => if matchesSeatUpdate pid r then seatRow now psize r else r) := by
    unfold updateSeatedStatus
    by_cases h : rows.any (matchesSeatUpdate pid) <;> simp [h]
  rw [hsnd, List.map_map]
  apply List.map_congr_left
  intro r _
  simp only [Function.comp_apply]
  by_cases hm : matchesSeatUpdate pid r
  · rw [if_pos hm]; rfl
  · rw [if_neg hm]

theorem dequeueUsers_map_pid (rows : List PartyRow) (now : Nat) :
    ((dequeueUsers rows now).1).map PartyRow.party_id = rows.map PartyRow.party_id := by
  rw [dequeueUsers_fst]
  by_cases hav : getAvailableSeatCount rows now > 0
  · rw [if_pos hav, handleDequeueUpdates_fst]
    by_cases hsel : (getPartiesToDequeue rows (getAvailableSeatCount rows now)).isEmpty
    · rw [if_pos hsel]
    · rw [if_neg hsel]
      exact setCheckingInStatus_map_pid rows now _
  · rw [if_neg hav]

theorem dequeueUsers_capacity (rows : List PartyRow) (now : Nat)
    (hnd : (rows.map PartyRow.party_id).Nodup)
    (hocc : occupiedSeats rows now ≤ MAX_SEATS) :
    occupiedSeats (dequeueUsers rows now).1 now ≤ MAX_SEATS := by
  rw [dequeueUsers_fst]
  by_cases hav : getAvailableSeatCount rows now > 0
  · rw [if_pos hav, handleDequeueUpdates_fst]
    by_cases hsel : (getPartiesToDequeue rows (getAvailableSeatCount rows now)).isEmpty
    · rw [if_pos hsel]; exact hocc
    · rw [if_neg hsel]
      have hdec := (dequeue_selection_decomposition rows now
        (getAvailableSeatCount rows now) hnd).1 now
      rw [hdec]
      have hb := sumSizes_greedyTake_le (getAvailableSeatCount rows now)
        (sortedQueue rows) (le_of_lt hav)
      have hdef : getAvailableSeatCount rows now
          = (MAX_SEATS : Int) - (occupiedSeats rows now : Int) := rfl
      omega
  · rw [if_neg hav]; exact hocc

theorem checkInParty_rows_cases (sess : Session) (rows : List PartyRow) (now : Nat) :
    (checkInParty sess rows now).rows = rows
    ∨ ∃ pid psize, (checkInParty sess rows now).rows
        = (updateSeatedStatus rows now pid psize).2 := by
  unfold checkInParty
  by_cases hg : (missingPartyID sess.partyID || missingPartySize sess.partySize) = true
  · rw [if_pos hg]; exact Or.inl rfl
  · rw [if_neg hg]
    cases hp : sess.partyID with
    | none => exact Or.inl rfl
    | some pid =>
      cases hs : sess.partySize with
      | none => exact Or.inl rfl
      | some psize =>
        refine Or.inr ⟨pid, psize, ?_⟩
        cases hres : (updateSeatedStatus rows now pid psize).1.1 with
        | some e => simp only [hres]
        | none => simp only [hres]

theorem deletePartyByID_snd_cases (rows : List PartyRow) (pid : String) :
    (deletePartyByID rows pid).2 = rows
    ∨ (deletePartyByID rows pid).2 = rows.filter (fun r => !(r.party_id == pid)) := by
  unfold deletePartyByID
  by_cases h : rows.any (fun r => r.party_id == pid)
  · simp [h]
  · simp [h]

theorem deleteParty_rows_cases (sess : Session) (rows : List PartyRow) :
    (deleteParty sess rows).rows = rows
    ∨ ∃ pid, (deleteParty sess rows).rows = (deletePartyByID rows pid).2 := by
  unfold deleteParty
  by_cases hg : (missingPartyID sess.partyID || missingPartySize sess.partySize) = true
  · rw [if_pos hg]; exact Or.inl rfl
  · rw [if_neg hg]
    cases hp : sess.partyID with
    | none => exact Or.inl rfl
    | some pid =>
      refine Or.inr ⟨pid, ?_⟩
      cases hres : (deletePartyByID rows pid).1 with
      | some e => simp only [hres]
      | none => simp only [hres]

/-- A snapshot of the system: the parties table and the store-side clock. -/
structure SysState where
  rows : List PartyRow
  now : Nat

/-- One atomic operation of the system, as the workers and API execute them:
party creation (with a fresh id, as the UNIQUE column enforces), a dequeue
run, a check-in request, the two expiry services, a leave-queue request, and
the passage of time. -/
inductive SysStep : SysState → SysState → Prop where
  | create (s : SysState) (pid : String) (size : Nat)
      (hfresh : pid ∉ s.rows.map PartyRow.party_id) :
      SysStep s ⟨s.rows ++ [⟨pid, size, s.now, PartyStatus.queued, none, none⟩], s.now⟩
  | dequeueRun (s : SysState) :
      SysStep s ⟨(dequeueUsers s.rows s.now).1, s.now⟩
  | checkin (s : SysState) (sess : Session) :
      SysStep s ⟨(checkInParty sess s.rows s.now).rows, s.now⟩
  | checkinExpiry (s : SysState) :
      SysStep s ⟨(expireCheckedinUsers s.rows s.now).rows, s.now⟩
  | seatExpiry (s : SysState) :
      SysStep s ⟨(removeExpiredSeats s.rows s.now).1, s.now⟩
  | leaveQueue (s : SysState) (sess : Session) :
      SysStep s ⟨(deleteParty sess s.rows).rows, s.now⟩
  | tick (s : SysState) (t : Nat) (hle : s.now ≤ t) :
      SysStep s ⟨s.rows, t⟩

/-- States reachable from an empty table under serialized operations. -/
inductive SysReachable : SysState → Prop where
  | init (t : Nat) : SysReachable ⟨[], t⟩
  | step {s s' : SysState} (h : SysReachable s) (hs : SysStep s s') : SysReachable s'

/-- Every reachable state has pairwise-distinct party ids and an occupied
seat count (at its own clock) of at most `MAX_SEATS`. -/
theorem sys_invariant {s : SysState} (h : SysReachable s) :
    (s.rows.map PartyRow.party_id).Nodup ∧ occupiedSeats s.rows s.now ≤ MAX_SEATS := by
  induction h with
  | init t => exact ⟨List.nodup_nil, by simp [occupiedSeats]⟩
  | @step s s' hr hstep ih =>
    obtain ⟨ihnd, ihocc⟩ := ih
    cases hstep with
    | create pid size hfresh =>
      constructor
      · rw [List.map_append, List.nodup_append]
        refine ⟨ihnd, List.nodup_singleton pid, ?_⟩
        intro x hx hx2
        rw [List.map_cons, List.map_nil, List.mem_singleton] at hx2
        subst hx2
        exact hfresh hx
      · show occupiedSeats (s.rows ++ [_]) s.now ≤ MAX_SEATS
        unfold occupiedSeats at ihocc ⊢
        rw [List.map_append, List.sum_append]
        simp only [List.map_cons, List.map_nil, List.sum_cons, List.sum_nil]
        have hz : occSize s.now ⟨pid, size, s.now, PartyStatus.queued, none, none⟩ = 0 := rfl
        rw [hz]
        omega
    | dequeueRun =>
      refine ⟨?_, dequeueUsers_capacity s.rows s.now ihnd ihocc⟩
      rw [dequeueUsers_map_pid]
      exact ihnd
    | checkin sess =>
      rcases checkInParty_rows_cases sess s.rows s.now with hc | ⟨pid, psize, hc⟩
      · rw [hc]; exact ⟨ihnd, ihocc⟩
      · constructor
        · rw [hc, updateSeatedStatus_map_pid]; exact ihnd
        · rw [hc]
          exact le_trans
            (occupiedSeats_updateSeatedStatus_le s.rows s.now pid psize s.now) ihocc
    | checkinExpiry =>
      have hrows : (expireCheckedinUsers s.rows s.now).rows
          = s.rows.filter (fun r => !isCheckinExpired s.now r) := rfl
      constructor
      · rw [hrows]
        exact ihnd.sublist ((List.filter_sublist _).map PartyRow.party_id)
      · rw [hrows]
        exact le_trans (occupiedSeats_filter_le _ s.rows s.now) ihocc
    | seatExpiry =>
      have hrows : (removeExpiredSeats s.rows s.now).1
          = s.rows.filter (fun r => !isSeatExpired s.now r) := rfl
      constructor
      · rw [hrows]
        exact ihnd.sublist ((List.filter_sublist _).map PartyRow.party_id)
      · rw [hrows]
        exact le_trans (occupiedSeats_filter_le _ s.rows s.now) ihocc
    | leaveQueue sess =>
      rcases deleteParty_rows_cases sess s.rows with hc | ⟨pid, hc⟩
      · rw [hc]; exact ⟨ihnd, ihocc⟩
      · rcases deletePartyByID_snd_cases s.rows pid with hd | hd
        · rw [hc, hd]; exact ⟨ihnd, ihocc⟩
        · rw [hc, hd]
          constructor
          · exact ihnd.sublist ((List.filter_sublist _).map PartyRow.party_id)
          · exact le_trans (occupiedSeats_filter_le _ s.rows s.now) ihocc
    | tick t hle =>
      exact ⟨ihnd, le_trans (occupiedSeats_mono s.rows hle) ihocc⟩

/-- C2: in every reachable state of the system (starting from an empty table
under serialized runs), at every time not earlier than the state's clock the
occupied seat count — seated rows with unexpired seats plus checking-in rows
— is at most `MAX_SEATS`; equivalently, every operation preserves
`available_seats ≥ 0`. -/
theorem C2_occupied_never_exceeds_max (s : SysState) (h : SysReachable s) :
    ∀ t, s.now ≤ t → occupiedSeats s.rows t ≤ MAX_SEATS := by
  intro t ht
  exact le_trans (occupiedSeats_mono s.rows ht) (sys_invariant h).2

/-- Witness for C2: create one party of size 2 at time 0, run the dequeue
service, and observe the occupied count at time 5. -/
theorem C2_witness :
    occupiedSeats (dequeueUsers [⟨"A", 2, 0, PartyStatus.queued, none, none⟩] 0).1 5
      ≤ MAX_SEATS := by
  have h0 : SysReachable ⟨[], 0⟩ := SysReachable.init 0
  have h1 : SysReachable ⟨[⟨"A", 2, 0, PartyStatus.queued, none, none⟩], 0⟩ :=
    SysReachable.step h0 (SysStep.create ⟨[], 0⟩ "A" 2 (by simp))
  have h2 : SysReachable
      ⟨(dequeueUsers [⟨"A", 2, 0, PartyStatus.queued, none, none⟩] 0).1, 0⟩ :=
    SysReachable.step h1 (SysStep.dequeueRun ⟨[⟨"A", 2, 0, PartyStatus.queued, none, none⟩], 0⟩)
  exact C2_occupied_never_exceeds_max _ h2 5 (Nat.zero_le 5)
